import Mathlib

/-!
Verification development for the biomed agent core: a shallow embedding of
the protocol session (mcp_client) and the orchestration loop (agent),
with theorems settling the frozen claims about request/response
correlation, timeout handling, tool-result unwrapping, multi-server
connect, and the bounded reason-act loop.
-/

/-- Dynamic JSON-like values, the data exchanged with tool servers and the
language model. Numbers are modelled as integers; no claim touches
floating point. -/
inductive JsonValue where
  | null : JsonValue
  | bool : Bool → JsonValue
  | num : Int → JsonValue
  | str : String → JsonValue
  | arr : List JsonValue → JsonValue
  | obj : List (String × JsonValue) → JsonValue

/-- Lookup of a key in an object field list, first match wins (Python
dictionaries have unique keys, so the first match is the only one). -/
def objGet (fields : List (String × JsonValue)) (k : String) : Option JsonValue :=
  (fields.find? (fun p => p.1 == k)).map Prod.snd

/-- Python truthiness of a JSON-like value, as used by `if value:` tests. -/
def pyTruthy : JsonValue → Bool
  | .null => false
  | .bool b => b
  | .num n => n != 0
  | .str s => s != ""
  | .arr xs => !xs.isEmpty
  | .obj fs => !fs.isEmpty

/-- Result of resolving a pending request: the future is set with a result
value or with an exception wrapping the error value, mirroring
set_result and set_exception in the read loop. -/
inductive Outcome where
  | ok : JsonValue → Outcome
  | err : JsonValue → Outcome

/-- One parsed JSON-RPC response envelope as seen by the read loop:
an optional id, an optional error field (presence of the key matters,
so it is an Option), and an optional result field. -/
structure Envelope where
  id : Option Nat
  error : Option JsonValue
  result : Option JsonValue

/-- The value a matching future is resolved with, from _read_responses:
an error outcome if the envelope carries an error key, otherwise the
result field defaulting to an empty object. -/
def envelopeOutcome (e : Envelope) : Outcome :=
  match e.error with
  | some v => .err v
  | none => .ok (e.result.getD (.obj []))

/-- Session correlation state of MCPClient: the next request id to
allocate, the ids with a registered unresolved future (the keys of
_response_futures), and a log of resolved futures in resolution order. -/
structure SessionState where
  nextId : Nat
  pending : List Nat
  resolved : List (Nat × Outcome)

/-- Fresh session state from MCPClient.__init__: the id counter starts at
1 and no future is registered. -/
def initState : SessionState := ⟨1, [], []⟩

/-- One pass of the read loop body over a parsed envelope, from
_read_responses: if the envelope id is truthy and has a registered
pending future, pop that entry and resolve the future with the envelope
outcome; otherwise the envelope is dropped and the state is unchanged. -/
def deliver (st : SessionState) (e : Envelope) : SessionState :=
  match e.id with
  | none => st
  | some i =>
    if i ≠ 0 ∧ i ∈ st.pending then
      { st with pending := st.pending.erase i,
                resolved := st.resolved ++ [(i, envelopeOutcome e)] }
    else st

/-- Delivery of a sequence of envelopes to the read loop, in arrival
order. -/
def deliverAll (st : SessionState) (es : List Envelope) : SessionState :=
  es.foldl deliver st

/-- The operations that mutate the correlation state during a session
lifetime: id allocation plus future registration by _send_request,
removal of an id on timeout, and envelope processing by the read loop. -/
inductive SessionOp where
  | send : SessionOp
  | timeout : Nat → SessionOp
  | deliverOp : Envelope → SessionOp

/-- Effect of one session operation on the correlation state. A send
allocates the current next id and registers it; a timeout pops the id
(pop with a default, so absent ids are tolerated); a delivery runs the
read loop body. -/
def sessionStep (st : SessionState) : SessionOp → SessionState
  | .send => { st with nextId := st.nextId + 1, pending := st.pending ++ [st.nextId] }
  | .timeout i => { st with pending := st.pending.erase i }
  | .deliverOp e => deliver st e

/-- Replay of a list of session operations from the fresh state. -/
def sessionRun (ops : List SessionOp) : SessionState :=
  ops.foldl sessionStep initState

/-- The ids handed out by _send_request along a trace of operations
started in a given state. -/
def issuedIdsFrom (st : SessionState) : List SessionOp → List Nat
  | [] => []
  | .send :: rest => st.nextId :: issuedIdsFrom (sessionStep st .send) rest
  | op :: rest => issuedIdsFrom (sessionStep st op) rest

/-- Number of send operations in a trace. -/
def sendCount : List SessionOp → Nat
  | [] => 0
  | .send :: rest => sendCount rest + 1
  | _ :: rest => sendCount rest

/-- Kinds of Python exception surfaced to a caller of _send_request:
either the builtin TimeoutError class, or a plain Exception carrying a
message. -/
inductive PyErr where
  | timeoutErr : PyErr
  | exc : String → PyErr
deriving DecidableEq

/-- Timeout branch of _send_request: when the 30 second wait elapses, the
entry for the request id is popped from the pending map first, then a
plain Exception naming the method is raised (the internal
asyncio.TimeoutError is caught and replaced). The returned pair is the
state after the pop together with the raised exception. -/
def send_request_on_timeout (st : SessionState) (i : Nat) (method : String) :
    SessionState × PyErr :=
  ({ st with pending := st.pending.erase i },
   .exc ("Timeout waiting for response to " ++ method))

/-- Unwrapping of a tools/call response by MCPClient.call_tool. The
json.loads parser of the Python standard library is passed as an oracle
jsonLoads. The response is read with dict.get for the content key
(default empty list); a non-empty list content whose first element is a
dict carrying a text key has that text parsed, falling back to the raw
text when parsing fails; in every other case the content value itself
is returned. Calling json.loads on a non-string and reading content off
a non-dict response raise, modelled as error results. -/
def call_tool_unwrap (jsonLoads : String → Option JsonValue) (response : JsonValue) :
    Except String JsonValue :=
  match response with
  | .obj fs =>
    match (objGet fs "content").getD (.arr []) with
    | .arr (first :: rest) =>
      match first with
      | .obj ffs =>
        match objGet ffs "text" with
        | some (.str t) => .ok ((jsonLoads t).getD (.str t))
        | some _ => .error "TypeError: the JSON object must be a string"
        | none => .ok (.arr (first :: rest))
      | _ => .ok (.arr (first :: rest))
    | other => .ok other
  | _ => .error "AttributeError: response has no attribute get"

example : call_tool_unwrap (fun _ => some (.num 5)) (.obj [("content", .arr [.obj [("text", .str "5")]])]) = .ok (.num 5) := rfl
example : call_tool_unwrap (fun _ => none) (.obj [("content", .arr [.obj [("text", .str "plain")]])]) = .ok (.str "plain") := rfl
example : call_tool_unwrap (fun _ => none) (.obj [("status", .str "ok")]) = .ok (.arr []) := rfl

/-- Role-tagged messages of the conversation transcript driving one
reasoning call. -/
inductive Message where
  | system : String → Message
  | human : String → Message
  | ai : String → Message

/-- The record returned by reason_and_act: the query, the answer value,
and the ordered step trace. -/
structure RAResult where
  query : String
  answer : JsonValue
  steps : List JsonValue

/-- External collaborators and registry state consumed by the
orchestration loop: the language model backend (a transcript to one
completion, or a raised failure), the json.loads and json.dumps
functions of the Python standard library as oracles, the system prompt
text built from the registered tool schemas, the set of registered tool
ids, and the per-tool remote execution (MCPClient.call_tool), which
returns a value or raises. -/
structure LoopEnv where
  llm : List Message → Except String String
  jsonLoads : String → Option JsonValue
  dumps : JsonValue → String
  sysPrompt : String
  registry : List String
  exec : String → JsonValue → Except String JsonValue

/-- The opening brace character. -/
def braceOpen : Char := Char.ofNat 123

/-- The closing brace character. -/
def braceClose : Char := Char.ofNat 125

/-- Index of the first occurrence of a character, as str.find (None for
the Python sentinel -1). -/
def strFindIdx (cs : List Char) (c : Char) : Option Nat :=
  cs.findIdx? (fun x => x == c)

/-- Index of the last occurrence of a character, as str.rfind (None for
the Python sentinel -1). -/
def strRFindIdx (cs : List Char) (c : Char) : Option Nat :=
  match strFindIdx cs.reverse c with
  | some j => some (cs.length - 1 - j)
  | none => none

/-- Extraction of the structured action from one completion, from
reason_and_act: locate the first opening brace and the last closing
brace, require a non-empty slice, and parse the slice with json.loads
(the jsonLoads oracle); any failure yields none. -/
def extractAction (jsonLoads : String → Option JsonValue) (content : String) :
    Option JsonValue :=
  let cs := content.toList
  match strFindIdx cs braceOpen, strRFindIdx cs braceClose with
  | some s, some e =>
    if e + 1 > s then jsonLoads (String.mk ((cs.drop s).take (e + 1 - s)))
    else none
  | some _, none => none
  | none, _ => none

/-- Python membership test key in value, as used on the action value: key
lookup for dicts, substring test for strings, element equality for
lists, and a TypeError for non-container values. -/
def pyIn (key : String) (v : JsonValue) : Except String Bool :=
  match v with
  | .obj fs => .ok ((objGet fs key).isSome)
  | .arr xs => .ok (xs.any (fun x => match x with | .str s => s == key | _ => false))
  | .str s => .ok (decide (List.IsInfix key.toList s.toList))
  | _ => .error "TypeError: argument is not iterable"

/-- Python subscript value[key] with a string key: field lookup for
dicts (KeyError if absent), TypeError otherwise. -/
def pySubscriptStr (v : JsonValue) (key : String) : Except String JsonValue :=
  match v with
  | .obj fs =>
    match objGet fs key with
    | some x => .ok x
    | none => .error ("KeyError: " ++ key)
  | _ => .error "TypeError: indices must be integers"

/-- The synthesized terminal step used when extraction or parsing of the
completion fails, with the field order of the source literal. -/
def apologyAnswer : String :=
  "I apologize, I had trouble processing the response. Please try again."

/-- The degraded action dict substituted on parse failure. -/
def apologyDict : JsonValue :=
  .obj [("thought", .str "Failed to parse response"),
        ("is_final", .bool true),
        ("answer", .str apologyAnswer)]

/-- The format-error message recorded when a non-final action lacks the
tool or arguments field. -/
def invalidActionMsg : String :=
  "Invalid action format. Expected \x7b\"tool\": \"...\", \"arguments\": \x7b...\x7d\x7d"

/-- BiomedAgent.call_tool: an id absent from the registry raises a
ValueError naming the unknown tool; a registered id is dispatched to
the owning session. A non-string tool value is never a registry key:
hashable values fall to the unknown-tool error, unhashable ones raise a
TypeError. Every raised failure is modelled as an error result, since
the caller in the loop catches all exceptions alike. -/
def agent_call_tool (env : LoopEnv) (toolv argsv : JsonValue) : Except String JsonValue :=
  match toolv with
  | .str s =>
    if env.registry.contains s then env.exec s argsv
    else .error ("Unknown tool: " ++ s)
  | .arr _ => .error "TypeError: unhashable type"
  | .obj _ => .error "TypeError: unhashable type"
  | .null => .error "Unknown tool: None"
  | .bool b => .error ("Unknown tool: " ++ (if b then "True" else "False"))
  | .num n => .error ("Unknown tool: " ++ toString n)

/-- The observation record built after a tool invocation: the tool value
together with the returned result, or with the stringified raised
error. -/
def mkObservation (toolv : JsonValue) (res : Except String JsonValue) : JsonValue :=
  match res with
  | .ok r => .obj [("tool", toolv), ("result", r)]
  | .error e => .obj [("tool", toolv), ("error", .str e)]

/-- Outcome of one iteration of the reason_and_act loop body: either a
returned result record, or the updated step trace and transcript for
the next iteration. -/
inductive IterOut where
  | finished : RAResult → IterOut
  | next : List JsonValue → List Message → IterOut

/-- The result record built by the outer exception handler of
reason_and_act: the failure description becomes the answer and the
steps accumulated so far are returned. -/
def errorResult (query : String) (steps : List JsonValue) (msg : String) : RAResult :=
  ⟨query, .str ("Error during processing: " ++ msg), steps⟩

/-- One iteration of the reason_and_act loop body, translated clause by
clause from the source: call the backend, extract and parse the action
dict (substituting the apology dict on failure), append it to the step
trace, return on a truthy is_final flag, execute a well-formed action
and append its observation to trace and transcript, record a
format-error observation for a malformed action, and skip transcript
updates entirely when the action field is absent or falsy. Failures
outside the inner tool-call handler (backend failure, attribute and
type errors on malformed parses) flow to the outer handler, which
returns the error result. -/
def loopIter (env : LoopEnv) (query : String) (steps : List JsonValue)
    (messages : List Message) : IterOut :=
  match env.llm messages with
  | .error e => .finished (errorResult query steps e)
  | .ok content =>
    let ad := (extractAction env.jsonLoads content).getD apologyDict
    let steps1 := steps ++ [ad]
    match ad with
    | .obj fs =>
      if pyTruthy ((objGet fs "is_final").getD (.bool false)) then
        .finished ⟨query, (objGet fs "answer").getD (.str ""), steps1⟩
      else
        match objGet fs "action" with
        | some act =>
          if pyTruthy act then
            match pyIn "tool" act, pyIn "arguments" act with
            | .ok bt, .ok ba =>
              if bt && ba then
                match pySubscriptStr act "tool", pySubscriptStr act "arguments" with
                | .ok toolv, .ok argsv =>
                  let obs := mkObservation toolv (agent_call_tool env toolv argsv)
                  .next (steps1 ++ [.obj [("observation", obs)]])
                    (messages ++ [.ai (env.dumps ad),
                      .human ("Observation: " ++ env.dumps obs)])
                | .error e, _ => .finished (errorResult query steps1 e)
                | _, .error e => .finished (errorResult query steps1 e)
              else
                .next (steps1 ++ [.obj [("observation",
                        .obj [("error", .str invalidActionMsg)])]])
                  (messages ++ [.ai (env.dumps ad),
                    .human ("Error: " ++ invalidActionMsg ++ ". Please use the correct format.")])
            | .error e, _ => .finished (errorResult query steps1 e)
            | _, .error e => .finished (errorResult query steps1 e)
          else .next steps1 messages
        | none => .next steps1 messages
    | _ => .finished (errorResult query steps1 "AttributeError: object has no attribute get")

/-- The step-budget-exhausted answer returned when the loop runs out of
iterations. -/
def budgetAnswer : String := "Reached maximum steps without final answer"

/-- The bounded loop of reason_and_act: with no iterations left, return
the budget-exhausted record with the trace so far; otherwise run one
iteration and either return its record or continue with the updated
trace and transcript. -/
def loopGo (env : LoopEnv) (query : String) :
    Nat → List JsonValue → List Message → RAResult
  | 0, steps, _ => ⟨query, .str budgetAnswer, steps⟩
  | n + 1, steps, messages =>
    match loopIter env query steps messages with
    | .finished r => r
    | .next s m => loopGo env query n s m

/-- BiomedAgent.reason_and_act: initialize the transcript with the system
prompt and the user query, then run up to max_steps loop iterations
with an empty step trace. -/
def reason_and_act (env : LoopEnv) (query : String) (max_steps : Nat) : RAResult :=
  loopGo env query max_steps [] [.system env.sysPrompt, .human query]

/-- The configured server names, the keys of the MCP_SERVERS table. -/
def mcpServerNames : List String :=
  ["opentargets", "monarch", "mychem", "mydisease", "mygene"]

/-- External state consumed by BiomedAgent.connect: filesystem existence
of each configured server path, and the outcome of connecting one
server and listing its tools (MCPClient.connect and list_tools over the
spawned subprocess), which yields the tool names or raises. -/
structure ConnectEnv where
  pathExists : String → Bool
  connectResult : String → Except String (List String)

/-- The registry key space produced by BiomedAgent.connect over a list of
requested server names: unknown names are skipped, names whose path
does not exist are skipped with a warning, a failing per-server connect
is caught and logged leaving no entries, and a successful connect
registers every tool under serverName.toolName. The function is total:
connect never raises to its caller. -/
def connectRegistry (env : ConnectEnv) : List String → List String
  | [] => []
  | s :: rest =>
    (if mcpServerNames.contains s && env.pathExists s then
      match env.connectResult s with
      | .ok tools => tools.map (fun t => s ++ "." ++ t)
      | .error _ => []
    else []) ++ connectRegistry env rest


/-! Helper lemmas about association-list lookup over the resolution log. -/

theorem lookup_append_left {i : Nat} {v : Outcome} {l1 l2 : List (Nat × Outcome)}
    (h : List.lookup i l1 = some v) : List.lookup i (l1 ++ l2) = some v := by
  induction l1 with
  | nil => simp [List.lookup] at h
  | cons p rest ih =>
    rw [List.cons_append]
    cases p with
    | mk k w =>
      rw [List.lookup_cons] at h ⊢
      cases hk : (i == k) with
      | true => simpa [hk] using h
      | false =>
        simp only [hk] at h ⊢
        exact ih h

theorem lookup_eq_none_of_keys_ne {i : Nat} {l : List (Nat × Outcome)}
    (h : ∀ p ∈ l, p.1 ≠ i) : List.lookup i l = none := by
  induction l with
  | nil => rfl
  | cons p rest ih =>
    cases p with
    | mk k w =>
      rw [List.lookup_cons]
      have hk : (i == k) = false := by
        have := h (k, w) (List.mem_cons_self _ _)
        simp only [ne_eq] at this
        simp [beq_iff_eq]
        intro hik
        exact this hik.symm
      simp only [hk]
      exact ih (fun p hp => h p (List.mem_cons_of_mem _ hp))

theorem lookup_append_of_keys_ne {i : Nat} {l1 l2 : List (Nat × Outcome)}
    (h : ∀ p ∈ l1, p.1 ≠ i) : List.lookup i (l1 ++ l2) = List.lookup i l2 := by
  induction l1 with
  | nil => rfl
  | cons p rest ih =>
    cases p with
    | mk k w =>
      rw [List.cons_append, List.lookup_cons]
      have hk : (i == k) = false := by
        have := h (k, w) (List.mem_cons_self _ _)
        simp only [ne_eq] at this
        simp [beq_iff_eq]
        intro hik
        exact this hik.symm
      simp only [hk]
      exact ih (fun p hp => h p (List.mem_cons_of_mem _ hp))

/-! Helper lemmas about the read-loop delivery step. -/

theorem deliver_hit (st : SessionState) (e : Envelope) (i : Nat)
    (he : e.id = some i) (hi : i ≠ 0) (hp : i ∈ st.pending) :
    deliver st e = { st with pending := st.pending.erase i,
                             resolved := st.resolved ++ [(i, envelopeOutcome e)] } := by
  unfold deliver
  rw [he]
  simp [hi, hp]

theorem deliver_miss (st : SessionState) (e : Envelope) (i : Nat)
    (he : e.id = some i) (hp : i ∉ st.pending) :
    deliver st e = st := by
  unfold deliver
  rw [he]
  simp [hp]

theorem deliver_nextId (st : SessionState) (e : Envelope) :
    (deliver st e).nextId = st.nextId := by
  unfold deliver
  cases e.id with
  | none => rfl
  | some i => by_cases h : i ≠ 0 ∧ i ∈ st.pending <;> simp [h]

theorem deliver_resolved_cases (st : SessionState) (e : Envelope) :
    (deliver st e).resolved = st.resolved ∨
      ∃ i, e.id = some i ∧
        (deliver st e).resolved = st.resolved ++ [(i, envelopeOutcome e)] := by
  unfold deliver
  cases he : e.id with
  | none => exact Or.inl rfl
  | some i =>
    by_cases h : i ≠ 0 ∧ i ∈ st.pending
    · exact Or.inr ⟨i, rfl, by simp [h]⟩
    · exact Or.inl (by simp [h])

theorem deliverAll_resolved_mono (es : List Envelope) (st : SessionState) :
    ∃ suf, (deliverAll st es).resolved = st.resolved ++ suf ∧
      ∀ p ∈ suf, ∃ e ∈ es, e.id = some p.1 := by
  induction es generalizing st with
  | nil => exact ⟨[], by simp [deliverAll], by simp⟩
  | cons e rest ih =>
    obtain ⟨suf, hsuf, hkeys⟩ := ih (deliver st e)
    have hstep : deliverAll st (e :: rest) = deliverAll (deliver st e) rest := rfl
    rcases deliver_resolved_cases st e with hcase | ⟨i, hid, hcase⟩
    · refine ⟨suf, ?_, ?_⟩
      · rw [hstep, hsuf, hcase]
      · intro p hp
        obtain ⟨e', he', hid'⟩ := hkeys p hp
        exact ⟨e', List.mem_cons_of_mem _ he', hid'⟩
    · refine ⟨(i, envelopeOutcome e) :: suf, ?_, ?_⟩
      · rw [hstep, hsuf, hcase, List.append_assoc]
        rfl
      · intro p hp
        rcases List.mem_cons.1 hp with hp | hp
        · subst hp
          exact ⟨e, List.mem_cons_self _ _, hid⟩
        · obtain ⟨e', he', hid'⟩ := hkeys p hp
          exact ⟨e', List.mem_cons_of_mem _ he', hid'⟩

theorem deliverAll_resolves_aux (es : List Envelope) (st : SessionState)
    (hmem : ∀ e ∈ es, ∀ i, e.id = some i → i ≠ 0 ∧ i ∈ st.pending)
    (hsome : ∀ e ∈ es, e.id.isSome)
    (hnd : (es.map Envelope.id).Nodup)
    (hres : ∀ p ∈ st.resolved, ∀ e ∈ es, e.id ≠ some p.1) :
    ∀ e ∈ es, ∀ i, e.id = some i →
      List.lookup i (deliverAll st es).resolved = some (envelopeOutcome e) := by
  induction es generalizing st with
  | nil => intro e he; exact absurd he (List.not_mem_nil e)
  | cons e rest ih =>
    obtain ⟨i, hid⟩ := Option.isSome_iff_exists.1 (hsome e (List.mem_cons_self _ _))
    obtain ⟨hi0, hip⟩ := hmem e (List.mem_cons_self _ _) i hid
    have hhit := deliver_hit st e i hid hi0 hip
    have hstep : deliverAll st (e :: rest) = deliverAll (deliver st e) rest := rfl
    have hnd2 : (Envelope.id e :: rest.map Envelope.id).Nodup := by
      rw [List.map_cons] at hnd
      exact hnd
    have hheadnotin : Envelope.id e ∉ rest.map Envelope.id := (List.nodup_cons.1 hnd2).1
    have hndtail : (rest.map Envelope.id).Nodup := (List.nodup_cons.1 hnd2).2
    have hne : ∀ e'' ∈ rest, ∀ j, e''.id = some j → j ≠ i := by
      intro e'' he'' j hj hji
      apply hheadnotin
      rw [hid, ← hji, ← hj]
      exact List.mem_map_of_mem Envelope.id he''
    intro e' he' i' hid'
    rcases List.mem_cons.1 he' with he' | he'
    · rw [he'] at hid'
      rw [hid] at hid'
      have hii : i' = i := (Option.some.inj hid').symm
      rw [he', hii]
      rw [hstep]
      obtain ⟨suf, hsuf, hkeys⟩ := deliverAll_resolved_mono rest (deliver st e)
      rw [hsuf, hhit]
      show List.lookup i ((st.resolved ++ [(i, envelopeOutcome e)]) ++ suf)
        = some (envelopeOutcome e)
      apply lookup_append_left
      rw [lookup_append_of_keys_ne]
      · simp [List.lookup]
      · intro p hp hpi
        exact (hres p hp e (List.mem_cons_self _ _))
          (show Envelope.id e = some p.1 by rw [hid, hpi])
    · have hmem2 : ∀ e'' ∈ rest, ∀ j, e''.id = some j →
          j ≠ 0 ∧ j ∈ (deliver st e).pending := by
        intro e'' he'' j hj
        obtain ⟨hj0, hjp⟩ := hmem e'' (List.mem_cons_of_mem _ he'') j hj
        refine ⟨hj0, ?_⟩
        rw [hhit]
        exact (List.mem_erase_of_ne (hne e'' he'' j hj)).2 hjp
      have hsome2 : ∀ e'' ∈ rest, (Envelope.id e'').isSome :=
        fun e'' he'' => hsome e'' (List.mem_cons_of_mem _ he'')
      have hres2 : ∀ p ∈ (deliver st e).resolved, ∀ e'' ∈ rest, e''.id ≠ some p.1 := by
        rw [hhit]
        intro p hp e'' he''
        rcases List.mem_append.1 hp with hp | hp
        · exact hres p hp e'' (List.mem_cons_of_mem _ he'')
        · simp only [List.mem_singleton] at hp
          subst hp
          exact fun hcon => hne e'' he'' i hcon rfl
      rw [hstep]
      exact ih (deliver st e) hmem2 hsome2 hndtail hres2 e' he' i' hid'

/-! Helper lemmas about replaying session operation traces. -/

theorem foldl_replicate_send (k : Nat) (st : SessionState) :
    (List.replicate k SessionOp.send).foldl sessionStep st =
      ⟨st.nextId + k, st.pending ++ List.range' st.nextId k, st.resolved⟩ := by
  induction k generalizing st with
  | zero => simp [List.range']
  | succ n ih =>
    rw [List.replicate_succ, List.foldl_cons]
    have hstep : sessionStep st .send =
        ⟨st.nextId + 1, st.pending ++ [st.nextId], st.resolved⟩ := rfl
    rw [hstep, ih]
    simp only [SessionState.mk.injEq]
    refine ⟨by omega, ?_, trivial⟩
    rw [List.range'_succ]
    simp [List.append_assoc]

/-- The correlation invariant of one session: the id counter is at least
1, pending ids are distinct, every pending id was allocated below the
counter, every resolved id was allocated below the counter, and no
pending id has already been resolved. -/
def SessionInv (st : SessionState) : Prop :=
  1 ≤ st.nextId ∧
  st.pending.Nodup ∧
  (∀ i ∈ st.pending, 1 ≤ i ∧ i < st.nextId) ∧
  (∀ p ∈ st.resolved, p.1 < st.nextId) ∧
  (∀ i ∈ st.pending, ∀ p ∈ st.resolved, p.1 ≠ i)

theorem sessionStep_inv (st : SessionState) (op : SessionOp) (h : SessionInv st) :
    SessionInv (sessionStep st op) := by
  obtain ⟨hone, hnd, hbound, hrbound, hdisj⟩ := h
  cases op with
  | send =>
    refine ⟨by show 1 ≤ st.nextId + 1; omega, ?_, ?_, ?_, ?_⟩
    · show (st.pending ++ [st.nextId]).Nodup
      rw [List.nodup_append]
      refine ⟨hnd, List.nodup_singleton _, ?_⟩
      intro a ha hb
      simp only [List.mem_singleton] at hb
      have := (hbound a ha).2
      omega
    · intro i hi
      rcases List.mem_append.1 hi with hi | hi
      · exact ⟨(hbound i hi).1, Nat.lt_succ_of_lt (hbound i hi).2⟩
      · simp only [List.mem_singleton] at hi
        subst hi
        exact ⟨hone, Nat.lt_succ_self _⟩
    · intro p hp
      exact Nat.lt_succ_of_lt (hrbound p hp)
    · intro i hi p hp
      rcases List.mem_append.1 hi with hi | hi
      · exact hdisj i hi p hp
      · simp only [List.mem_singleton] at hi
        subst hi
        exact Nat.ne_of_lt (hrbound p hp)
  | timeout j =>
    exact ⟨hone, hnd.erase _,
      fun i hi => hbound i (List.mem_of_mem_erase hi), hrbound,
      fun i hi p hp => hdisj i (List.mem_of_mem_erase hi) p hp⟩
  | deliverOp e =>
    show SessionInv (deliver st e)
    cases he : e.id with
    | none =>
      rw [show deliver st e = st from by unfold deliver; rw [he]]
      exact ⟨hone, hnd, hbound, hrbound, hdisj⟩
    | some i =>
      by_cases hc : i ≠ 0 ∧ i ∈ st.pending
      · rw [deliver_hit st e i he hc.1 hc.2]
        refine ⟨hone, hnd.erase _, ?_, ?_, ?_⟩
        · intro j hj
          exact hbound j (List.mem_of_mem_erase hj)
        · intro p hp
          rcases List.mem_append.1 hp with hp | hp
          · exact hrbound p hp
          · simp only [List.mem_singleton] at hp
            subst hp
            exact (hbound i hc.2).2
        · intro j hj p hp
          have hji : j ≠ i := ((hnd.mem_erase_iff).1 hj).1
          have hjmem : j ∈ st.pending := ((hnd.mem_erase_iff).1 hj).2
          rcases List.mem_append.1 hp with hp | hp
          · exact hdisj j hjmem p hp
          · simp only [List.mem_singleton] at hp
            subst hp
            exact Ne.symm hji
      · rw [show deliver st e = st from by unfold deliver; rw [he]; simp [hc]]
        exact ⟨hone, hnd, hbound, hrbound, hdisj⟩

theorem sessionInv_foldl (ops : List SessionOp) (st : SessionState) (h : SessionInv st) :
    SessionInv (ops.foldl sessionStep st) := by
  induction ops generalizing st with
  | nil => exact h
  | cons op rest ih => exact ih _ (sessionStep_inv st op h)

theorem foldl_sessionStep_nextId (ops : List SessionOp) (st : SessionState) :
    (ops.foldl sessionStep st).nextId = st.nextId + sendCount ops := by
  induction ops generalizing st with
  | nil => rfl
  | cons op rest ih =>
    rw [List.foldl_cons, ih]
    cases op with
    | send => show st.nextId + 1 + sendCount rest = st.nextId + (sendCount rest + 1); omega
    | timeout j => rfl
    | deliverOp e =>
      show (deliver st e).nextId + sendCount rest = st.nextId + sendCount rest
      rw [deliver_nextId]

theorem issuedIdsFrom_eq_range' (ops : List SessionOp) (st : SessionState) :
    issuedIdsFrom st ops = List.range' st.nextId (sendCount ops) := by
  induction ops generalizing st with
  | nil => rfl
  | cons op rest ih =>
    cases op with
    | send =>
      show st.nextId :: issuedIdsFrom (sessionStep st .send) rest
        = List.range' st.nextId (sendCount rest + 1)
      rw [ih, List.range'_succ]
      rfl
    | timeout j =>
      show issuedIdsFrom (sessionStep st (.timeout j)) rest
        = List.range' st.nextId (sendCount rest)
      rw [ih]
      rfl
    | deliverOp e =>
      show issuedIdsFrom (sessionStep st (.deliverOp e)) rest
        = List.range' st.nextId (sendCount rest)
      rw [ih]
      rw [show (sessionStep st (.deliverOp e)).nextId = st.nextId from deliver_nextId st e]

/-- C2: for concurrently issued requests with distinct ids 1..k on one
session, delivering the matching response envelopes to the read loop in
any permuted order resolves each waiting caller with exactly the result
or error carried by the envelope bearing its own id. -/
theorem read_loop_resolves_by_id_perm (k : Nat) (es : List Envelope)
    (hperm : (es.map Envelope.id).Perm ((List.range' 1 k).map some)) :
    ∀ e ∈ es, ∀ i, e.id = some i →
      List.lookup i (deliverAll (sessionRun (List.replicate k .send)) es).resolved
        = some (envelopeOutcome e) := by
  have hrun : sessionRun (List.replicate k .send) =
      ⟨1 + k, List.range' 1 k, []⟩ := by
    show (List.replicate k SessionOp.send).foldl sessionStep initState = _
    rw [foldl_replicate_send]
    rfl
  rw [hrun]
  apply deliverAll_resolves_aux
  · intro e he i hid
    have hin : some i ∈ (List.range' 1 k).map some := by
      rw [← hperm.mem_iff, ← hid]
      exact List.mem_map_of_mem Envelope.id he
    obtain ⟨j, hj, hji⟩ := List.mem_map.1 hin
    have hji' : j = i := Option.some.inj hji
    subst hji'
    have hb := List.mem_range'_1.1 hj
    exact ⟨by omega, hj⟩
  · intro e he
    have hin : e.id ∈ (List.range' 1 k).map some :=
      hperm.mem_iff.1 (List.mem_map_of_mem Envelope.id he)
    obtain ⟨j, hj, hji⟩ := List.mem_map.1 hin
    rw [← hji]
    rfl
  · exact hperm.nodup_iff.2 (List.Nodup.map (Option.some_injective Nat) (List.nodup_range' 1 k))
  · intro p hp
    exact absurd hp (List.not_mem_nil p)

/-- C2 witness: two requests issued, the two responses delivered in
reversed order; the caller waiting on id 1 is resolved with the error
of the envelope bearing id 1. -/
theorem read_loop_resolves_by_id_perm_witness :
    List.lookup 1 (deliverAll (sessionRun (List.replicate 2 .send))
        [⟨some 2, none, some (.str "r2")⟩, ⟨some 1, some (.str "boom"), none⟩]).resolved
      = some (Outcome.err (.str "boom")) :=
  read_loop_resolves_by_id_perm 2
    [⟨some 2, none, some (.str "r2")⟩, ⟨some 1, some (.str "boom"), none⟩]
    (by decide)
    ⟨some 1, some (.str "boom"), none⟩
    (List.mem_cons_of_mem _ (List.mem_cons_self _ _))
    1 rfl

/-- C3 counterexample: the failure surfaced to the caller on timeout is a
plain Exception with a timeout message, not the TimeoutError class, so
a request that receives no response within the timeout does not fail
with a TimeoutError as the claim states. -/
theorem timeout_error_class_cex :
    (send_request_on_timeout ⟨2, [1], []⟩ 1 "tools/list").2 ≠ PyErr.timeoutErr := by
  decide

/-- C3 amended: a request that receives no response within the timeout
fails with a plain Exception whose message names the timed-out method,
its id is removed from the pending map when the failure is raised (no
leak), and a response for that id arriving after the timeout is
silently dropped without changing the session state. -/
theorem timeout_removes_pending_and_drops_late (st : SessionState) (i : Nat)
    (m : String) (e : Envelope) (hnd : st.pending.Nodup) (he : e.id = some i) :
    (send_request_on_timeout st i m).2
        = .exc ("Timeout waiting for response to " ++ m) ∧
      i ∉ (send_request_on_timeout st i m).1.pending ∧
      deliver (send_request_on_timeout st i m).1 e
        = (send_request_on_timeout st i m).1 := by
  refine ⟨rfl, hnd.not_mem_erase, ?_⟩
  exact deliver_miss _ e i he hnd.not_mem_erase

/-- C3 amended witness: a session with pending ids 1 and 2 times out on
id 2; the plain Exception message, the removal of id 2, and the
dropping of a late response for id 2 are all evaluated concretely. -/
theorem timeout_removes_pending_and_drops_late_witness :
    (send_request_on_timeout ⟨3, [1, 2], []⟩ 2 "tools/call").2
        = .exc ("Timeout waiting for response to " ++ "tools/call") ∧
      2 ∉ (send_request_on_timeout ⟨3, [1, 2], []⟩ 2 "tools/call").1.pending ∧
      deliver (send_request_on_timeout ⟨3, [1, 2], []⟩ 2 "tools/call").1
          ⟨some 2, none, some (.str "late")⟩
        = (send_request_on_timeout ⟨3, [1, 2], []⟩ 2 "tools/call").1 :=
  timeout_removes_pending_and_drops_late ⟨3, [1, 2], []⟩ 2 "tools/call"
    ⟨some 2, none, some (.str "late")⟩ (by decide) rfl

/-- C8: along every trace of session operations, the ids handed out by
send form the monotonic counter 1, 2, up to the number of sends, so no
id is ever issued twice; every id in the pending map was issued by a
send of this session and is not yet resolved; and the pending map never
holds duplicates. Quantifying over all traces states preservation by
every send, timeout removal, and read-loop resolution. -/
theorem session_request_id_invariant (ops : List SessionOp) :
    (sessionRun ops).nextId = 1 + sendCount ops ∧
    issuedIdsFrom initState ops = List.range' 1 (sendCount ops) ∧
    (issuedIdsFrom initState ops).Nodup ∧
    (sessionRun ops).pending.Nodup ∧
    (∀ i ∈ (sessionRun ops).pending,
      i ∈ issuedIdsFrom initState ops ∧
        List.lookup i (sessionRun ops).resolved = none) := by
  have hinv : SessionInv (sessionRun ops) := by
    apply sessionInv_foldl
    exact ⟨Nat.le_refl 1, List.nodup_nil,
      fun i hi => absurd hi (List.not_mem_nil i),
      fun p hp => absurd hp (List.not_mem_nil p),
      fun i hi => absurd hi (List.not_mem_nil i)⟩
  have hnid : (sessionRun ops).nextId = 1 + sendCount ops := by
    show (ops.foldl sessionStep initState).nextId = 1 + sendCount ops
    rw [foldl_sessionStep_nextId]
    rfl
  have hiss : issuedIdsFrom initState ops = List.range' 1 (sendCount ops) :=
    issuedIdsFrom_eq_range' ops initState
  obtain ⟨hone, hnd, hbound, hrbound, hdisj⟩ := hinv
  refine ⟨hnid, hiss, ?_, hnd, ?_⟩
  · rw [hiss]
    exact List.nodup_range' 1 (sendCount ops)
  · intro i hi
    refine ⟨?_, ?_⟩
    · rw [hiss]
      have hb := hbound i hi
      rw [hnid] at hb
      exact List.mem_range'_1.2 ⟨hb.1, by omega⟩
    · exact lookup_eq_none_of_keys_ne (fun p hp => hdisj i hi p hp)

/-- C9: when two response envelopes carry the same pending id, the first
resolves the waiting caller with its own payload and removes the entry
from the pending map, so the second finds no matching entry and leaves
the state unchanged, never overwriting the first resolution. -/
theorem duplicate_response_dropped (st : SessionState) (e1 e2 : Envelope) (i : Nat)
    (hnd : st.pending.Nodup) (h1 : e1.id = some i) (h2 : e2.id = some i)
    (hi : i ≠ 0) (hp : i ∈ st.pending)
    (hres : ∀ p ∈ st.resolved, p.1 ≠ i) :
    deliver (deliver st e1) e2 = deliver st e1 ∧
      List.lookup i (deliver (deliver st e1) e2).resolved
        = some (envelopeOutcome e1) := by
  have hhit := deliver_hit st e1 i h1 hi hp
  have hnotmem : i ∉ (deliver st e1).pending := by
    rw [hhit]
    exact hnd.not_mem_erase
  have hdrop : deliver (deliver st e1) e2 = deliver st e1 :=
    deliver_miss _ e2 i h2 hnotmem
  refine ⟨hdrop, ?_⟩
  rw [hdrop, hhit]
  show List.lookup i (st.resolved ++ [(i, envelopeOutcome e1)]) = some (envelopeOutcome e1)
  rw [lookup_append_of_keys_ne hres]
  simp [List.lookup]

/-- C9 witness: id 1 pending, two envelopes for id 1 delivered; the
second delivery is a no-op and the recorded outcome is the payload of
the first envelope. -/
theorem duplicate_response_dropped_witness :
    deliver (deliver ⟨2, [1], []⟩ ⟨some 1, none, some (.str "first")⟩)
        ⟨some 1, none, some (.str "second")⟩
      = deliver ⟨2, [1], []⟩ ⟨some 1, none, some (.str "first")⟩ ∧
    List.lookup 1 (deliver (deliver ⟨2, [1], []⟩ ⟨some 1, none, some (.str "first")⟩)
        ⟨some 1, none, some (.str "second")⟩).resolved
      = some (Outcome.ok (.str "first")) :=
  duplicate_response_dropped ⟨2, [1], []⟩
    ⟨some 1, none, some (.str "first")⟩ ⟨some 1, none, some (.str "second")⟩ 1
    (by decide) rfl rfl (by decide) (by decide)
    (fun p hp => absurd hp (List.not_mem_nil p))

/-- C1 counterexample: for a tools/call result carrying no content, the
unwrap returns the default empty content list, which differs from the
raw result structure, so the no-content branch of the claim fails. -/
theorem call_tool_no_content_cex :
    call_tool_unwrap (fun _ => none) (.obj [("status", .str "ok")])
        = .ok (.arr []) ∧
      JsonValue.arr [] ≠ JsonValue.obj [("status", .str "ok")] :=
  ⟨rfl, fun h => JsonValue.noConfusion h⟩

/-- C1 amended: when the result carries a non-empty content list whose
first element is a dict with a text field, the unwrap returns the
parsed value when the text parses and the raw text otherwise; when no
content is present it returns the default empty content list, not the
raw result structure. -/
theorem call_tool_unwrap_characterization (parse : String → Option JsonValue)
    (fs : List (String × JsonValue)) :
    (∀ ffs rest t, objGet fs "content" = some (.arr (.obj ffs :: rest)) →
        objGet ffs "text" = some (.str t) →
        call_tool_unwrap parse (.obj fs) = .ok ((parse t).getD (.str t))) ∧
      (objGet fs "content" = none →
        call_tool_unwrap parse (.obj fs) = .ok (.arr [])) := by
  constructor
  · intro ffs rest t hc ht
    simp only [call_tool_unwrap, hc, Option.getD_some, ht]
  · intro hc
    simp only [call_tool_unwrap, hc, Option.getD_none]

/-- C1 amended witness: the three branches evaluated at concrete inputs,
with a concrete parse oracle accepting exactly one JSON text. -/
theorem call_tool_unwrap_characterization_witness :
    call_tool_unwrap
        (fun s => if s == "\x7b\"a\": 1\x7d" then some (.obj [("a", .num 1)]) else none)
        (.obj [("content", .arr [.obj [("text", .str "\x7b\"a\": 1\x7d")]])])
        = .ok (.obj [("a", .num 1)]) ∧
      call_tool_unwrap
        (fun s => if s == "\x7b\"a\": 1\x7d" then some (.obj [("a", .num 1)]) else none)
        (.obj [("content", .arr [.obj [("text", .str "plain")]])])
        = .ok (.str "plain") ∧
      call_tool_unwrap
        (fun s => if s == "\x7b\"a\": 1\x7d" then some (.obj [("a", .num 1)]) else none)
        (.obj [("isError", .bool false)])
        = .ok (.arr []) := by
  refine ⟨?_, ?_, ?_⟩
  · have h := (call_tool_unwrap_characterization
      (fun s => if s == "\x7b\"a\": 1\x7d" then some (.obj [("a", .num 1)]) else none)
      [("content", .arr [.obj [("text", .str "\x7b\"a\": 1\x7d")]])]).1
      [("text", .str "\x7b\"a\": 1\x7d")] [] "\x7b\"a\": 1\x7d" rfl rfl
    rw [h]
    rfl
  · have h := (call_tool_unwrap_characterization
      (fun s => if s == "\x7b\"a\": 1\x7d" then some (.obj [("a", .num 1)]) else none)
      [("content", .arr [.obj [("text", .str "plain")]])]).1
      [("text", .str "plain")] [] "plain" rfl rfl
    rw [h]
    rfl
  · exact (call_tool_unwrap_characterization
      (fun s => if s == "\x7b\"a\": 1\x7d" then some (.obj [("a", .num 1)]) else none)
      [("isError", .bool false)]).2 rfl

/-- C5: connecting over two configured servers where the path of the
second does not exist registers exactly the tools of the first under
its namespace; the missing-path server is skipped with a warning and
connect raises nothing (the registry construction is total). -/
theorem connect_skips_missing_path (env : ConnectEnv) (a b : String)
    (tools : List String)
    (ha : mcpServerNames.contains a = true)
    (hb : mcpServerNames.contains b = true)
    (hpa : env.pathExists a = true)
    (hpb : env.pathExists b = false)
    (hca : env.connectResult a = .ok tools) :
    connectRegistry env [a, b] = tools.map (fun t => a ++ "." ++ t) := by
  show (if mcpServerNames.contains a && env.pathExists a then
          match env.connectResult a with
          | .ok ts => ts.map (fun t => a ++ "." ++ t)
          | .error _ => []
        else []) ++
      ((if mcpServerNames.contains b && env.pathExists b then
          match env.connectResult b with
          | .ok ts => ts.map (fun t => b ++ "." ++ t)
          | .error _ => []
        else []) ++ []) = tools.map (fun t => a ++ "." ++ t)
  rw [ha, hpa, hb, hpb, hca]
  simp

/-- C5 witness: opentargets connects with two tools, the monarch path is
missing; the registry holds exactly the namespaced opentargets tools. -/
theorem connect_skips_missing_path_witness :
    connectRegistry
        ⟨fun s => s == "opentargets",
         fun s => if s == "opentargets" then .ok ["search_targets", "get_target"]
                  else .error "spawn failure"⟩
        ["opentargets", "monarch"]
      = ["opentargets.search_targets", "opentargets.get_target"] := by
  have h := connect_skips_missing_path
    ⟨fun s => s == "opentargets",
     fun s => if s == "opentargets" then .ok ["search_targets", "get_target"]
              else .error "spawn failure"⟩
    "opentargets" "monarch" ["search_targets", "get_target"] rfl rfl rfl rfl rfl
  rw [h]
  rfl

/-- C7: any failure raised inside a reasoning step, here the language
model backend call failing, never propagates to the caller of the loop:
the loop aborts immediately and returns the query, an answer describing
the failure, and the steps accumulated so far. -/
theorem loop_failure_returns_degraded (env : LoopEnv) (query : String)
    (fuel : Nat) (steps : List JsonValue) (messages : List Message) (e : String)
    (h : env.llm messages = .error e) :
    loopGo env query (fuel + 1) steps messages
      = ⟨query, .str ("Error during processing: " ++ e), steps⟩ := by
  have hit : loopIter env query steps messages
      = .finished (errorResult query steps e) := by
    unfold loopIter
    rw [h]
  show (match loopIter env query steps messages with
        | IterOut.finished r => r
        | IterOut.next s ms => loopGo env query fuel s ms)
      = (⟨query, .str ("Error during processing: " ++ e), steps⟩ : RAResult)
  rw [hit]
  rfl

/-- C7 witness: a backend that is unreachable on the first call; the loop
returns the degraded record with the failure description and the empty
accumulated trace. -/
theorem loop_failure_returns_degraded_witness :
    loopGo ⟨fun _ => .error "backend unreachable", fun _ => none, fun _ => "",
        "sys", [], fun _ _ => .ok .null⟩ "q" 3 [] [.system "sys", .human "q"]
      = ⟨"q", .str ("Error during processing: " ++ "backend unreachable"), []⟩ :=
  loop_failure_returns_degraded
    ⟨fun _ => .error "backend unreachable", fun _ => none, fun _ => "",
     "sys", [], fun _ _ => .ok .null⟩
    "q" 2 [] [.system "sys", .human "q"] "backend unreachable" rfl

/-- C6: a backend whose completions never contain a parsable
brace-delimited structured action makes reason_and_act terminate on its
first iteration with the generic apology answer and a trace holding
exactly the one synthesized degraded terminal step. -/
theorem unparsable_single_degraded_step (env : LoopEnv) (query : String) (n : Nat)
    (H : ∀ messages, ∃ c, env.llm messages = .ok c ∧
      extractAction env.jsonLoads c = none)
    (hn : 1 ≤ n) :
    reason_and_act env query n = ⟨query, .str apologyAnswer, [apologyDict]⟩ := by
  obtain ⟨m, rfl⟩ : ∃ m, n = m + 1 := ⟨n - 1, by omega⟩
  obtain ⟨c, hc, hext⟩ := H [.system env.sysPrompt, .human query]
  have hit : loopIter env query [] [.system env.sysPrompt, .human query]
      = .finished ⟨query, .str apologyAnswer, [apologyDict]⟩ := by
    simp only [loopIter, hc, hext, Option.getD_none]
    rfl
  show (match loopIter env query [] [.system env.sysPrompt, .human query] with
        | IterOut.finished r => r
        | IterOut.next s ms => loopGo env query m s ms)
      = (⟨query, .str apologyAnswer, [apologyDict]⟩ : RAResult)
  rw [hit]

/-- C6 witness: a backend that always answers free text without braces;
ten allowed steps still yield the single degraded step and the apology
answer. -/
theorem unparsable_single_degraded_step_witness :
    reason_and_act ⟨fun _ => .ok "no structured action here", fun _ => none,
        fun _ => "", "sys", [], fun _ _ => .ok .null⟩ "what is BRCA1" 10
      = ⟨"what is BRCA1", .str apologyAnswer, [apologyDict]⟩ :=
  unparsable_single_degraded_step
    ⟨fun _ => .ok "no structured action here", fun _ => none,
     fun _ => "", "sys", [], fun _ _ => .ok .null⟩
    "what is BRCA1" 10
    (fun _ => ⟨"no structured action here", rfl, rfl⟩) (by omega)

/-- C10: in an iteration whose parsed completion is non-final and whose
action field is absent or falsy, the parsed step is appended to the
trace while the transcript is left unchanged, so the next language
model call sees exactly the same messages. -/
theorem no_action_keeps_transcript (env : LoopEnv) (query : String)
    (steps : List JsonValue) (messages : List Message) (fuel : Nat)
    (c : String) (fs : List (String × JsonValue))
    (hllm : env.llm messages = .ok c)
    (hext : extractAction env.jsonLoads c = some (.obj fs))
    (hfin : pyTruthy ((objGet fs "is_final").getD (.bool false)) = false)
    (hact : objGet fs "action" = none ∨
      ∃ a, objGet fs "action" = some a ∧ pyTruthy a = false) :
    loopIter env query steps messages = .next (steps ++ [.obj fs]) messages ∧
      loopGo env query (fuel + 1) steps messages
        = loopGo env query fuel (steps ++ [.obj fs]) messages := by
  have hit : loopIter env query steps messages
      = .next (steps ++ [.obj fs]) messages := by
    simp only [loopIter, hllm, hext, Option.getD_some]
    rcases hact with hnone | ⟨a, hsome, hpa⟩
    · simp [hfin, hnone]
    · simp [hfin, hsome, hpa]
  refine ⟨hit, ?_⟩
  show (match loopIter env query steps messages with
        | IterOut.finished r => r
        | IterOut.next s ms => loopGo env query fuel s ms)
      = loopGo env query fuel (steps ++ [.obj fs]) messages
  rw [hit]

/-- C10 witness: a parsed non-final step with no action field; the step
lands in the trace and the transcript stays untouched. -/
theorem no_action_keeps_transcript_witness :
    loopIter ⟨fun _ => .ok "\x7bx\x7d",
        fun _ => some (.obj [("thought", .str "pondering"), ("is_final", .bool false)]),
        fun _ => "", "sys", [], fun _ _ => .ok .null⟩
        "q" [] [.system "sys", .human "q"]
      = .next [.obj [("thought", .str "pondering"), ("is_final", .bool false)]]
          [.system "sys", .human "q"] ∧
    loopGo ⟨fun _ => .ok "\x7bx\x7d",
        fun _ => some (.obj [("thought", .str "pondering"), ("is_final", .bool false)]),
        fun _ => "", "sys", [], fun _ _ => .ok .null⟩
        "q" 1 [] [.system "sys", .human "q"]
      = loopGo ⟨fun _ => .ok "\x7bx\x7d",
          fun _ => some (.obj [("thought", .str "pondering"), ("is_final", .bool false)]),
          fun _ => "", "sys", [], fun _ _ => .ok .null⟩
          "q" 0 [.obj [("thought", .str "pondering"), ("is_final", .bool false)]]
          [.system "sys", .human "q"] :=
  no_action_keeps_transcript
    ⟨fun _ => .ok "\x7bx\x7d",
     fun _ => some (.obj [("thought", .str "pondering"), ("is_final", .bool false)]),
     fun _ => "", "sys", [], fun _ _ => .ok .null⟩
    "q" [] [.system "sys", .human "q"] 0 "\x7bx\x7d"
    [("thought", .str "pondering"), ("is_final", .bool false)]
    rfl rfl rfl (Or.inl rfl)

/-- The observation step recorded when the requested tool id is not in
the registry: the raised ValueError message captured as the error field
of the observation. -/
def unknownToolObs (t : String) : JsonValue :=
  .obj [("observation",
    .obj [("tool", .str t), ("error", .str ("Unknown tool: " ++ t))])]

/-- Backend behavior hypothesized by C4: every completion parses to a
non-final action dict whose action names a tool id absent from the
registry together with an arguments value. -/
def AlwaysUnknownTool (env : LoopEnv) : Prop :=
  ∀ messages, ∃ c fs afs t args,
    env.llm messages = .ok c ∧
    extractAction env.jsonLoads c = some (.obj fs) ∧
    pyTruthy ((objGet fs "is_final").getD (.bool false)) = false ∧
    objGet fs "action" = some (.obj afs) ∧
    objGet afs "tool" = some (.str t) ∧
    objGet afs "arguments" = some args ∧
    env.registry.contains t = false

/-- The flattened trace of a sequence of action/observation pairs, each
pair being a parsed action dict followed by the unknown-tool
observation for its tool id. -/
def stepPairs : List (List (String × JsonValue) × String) → List JsonValue
  | [] => []
  | p :: rest => .obj p.1 :: unknownToolObs p.2 :: stepPairs rest

theorem pyTruthy_obj_of_objGet_some (afs : List (String × JsonValue)) (k : String)
    (v : JsonValue) (h : objGet afs k = some v) : pyTruthy (.obj afs) = true := by
  cases afs with
  | nil => simp [objGet] at h
  | cons p rest => simp [pyTruthy]

theorem append_pair_assoc (steps : List JsonValue) (x y : JsonValue)
    (rest : List JsonValue) :
    ((steps ++ [x]) ++ [y]) ++ rest = steps ++ (x :: y :: rest) := by
  simp

theorem loopIter_unknown_tool (env : LoopEnv) (query : String)
    (steps : List JsonValue) (messages : List Message)
    (c : String) (fs afs : List (String × JsonValue)) (t : String) (args : JsonValue)
    (hllm : env.llm messages = .ok c)
    (hext : extractAction env.jsonLoads c = some (.obj fs))
    (hfin : pyTruthy ((objGet fs "is_final").getD (.bool false)) = false)
    (hact : objGet fs "action" = some (.obj afs))
    (htool : objGet afs "tool" = some (.str t))
    (hargs : objGet afs "arguments" = some args)
    (hreg : env.registry.contains t = false) :
    loopIter env query steps messages
      = .next ((steps ++ [.obj fs]) ++ [unknownToolObs t])
          (messages ++ [.ai (env.dumps (.obj fs)),
            .human ("Observation: " ++ env.dumps
              (.obj [("tool", .str t), ("error", .str ("Unknown tool: " ++ t))]))]) := by
  have htr : pyTruthy (.obj afs) = true := pyTruthy_obj_of_objGet_some afs "tool" (.str t) htool
  simp only [loopIter, hllm, hext, Option.getD_some, hfin, hact, htr, pyIn,
    pySubscriptStr, htool, hargs, Option.isSome_some, Bool.and_self,
    agent_call_tool, hreg, mkObservation, unknownToolObs,
    Bool.false_eq_true, if_false, if_true]

theorem loopGo_unknown_tool (env : LoopEnv) (H : AlwaysUnknownTool env)
    (query : String) :
    ∀ fuel steps messages, ∃ l : List (List (String × JsonValue) × String),
      l.length = fuel ∧
      loopGo env query fuel steps messages
        = ⟨query, .str budgetAnswer, steps ++ stepPairs l⟩ ∧
      ∀ p ∈ l, env.registry.contains p.2 = false := by
  intro fuel
  induction fuel with
  | zero =>
    intro steps messages
    refine ⟨[], rfl, ?_, fun p hp => absurd hp (List.not_mem_nil p)⟩
    show (⟨query, .str budgetAnswer, steps⟩ : RAResult)
      = ⟨query, .str budgetAnswer, steps ++ stepPairs []⟩
    rw [show stepPairs [] = [] from rfl, List.append_nil]
  | succ n ih =>
    intro steps messages
    obtain ⟨c, fs, afs, t, args, hllm, hext, hfin, hact, htool, hargs, hreg⟩ := H messages
    have hit := loopIter_unknown_tool env query steps messages c fs afs t args
      hllm hext hfin hact htool hargs hreg
    obtain ⟨l, hlen, hres, hregs⟩ := ih ((steps ++ [.obj fs]) ++ [unknownToolObs t])
      (messages ++ [.ai (env.dumps (.obj fs)),
        .human ("Observation: " ++ env.dumps
          (.obj [("tool", .str t), ("error", .str ("Unknown tool: " ++ t))]))])
    refine ⟨(fs, t) :: l, by rw [List.length_cons, hlen], ?_, ?_⟩
    · show (match loopIter env query steps messages with
            | IterOut.finished r => r
            | IterOut.next s ms => loopGo env query n s ms)
        = (⟨query, .str budgetAnswer, steps ++ stepPairs ((fs, t) :: l)⟩ : RAResult)
      rw [hit]
      show loopGo env query n ((steps ++ [.obj fs]) ++ [unknownToolObs t]) _
        = (⟨query, .str budgetAnswer, steps ++ stepPairs ((fs, t) :: l)⟩ : RAResult)
      rw [hres]
      rw [show stepPairs ((fs, t) :: l)
        = .obj fs :: unknownToolObs t :: stepPairs l from rfl]
      rw [append_pair_assoc]
    · intro p hp
      rcases List.mem_cons.1 hp with hp | hp
      · rw [hp]
        exact hreg
      · exact hregs p hp

/-- C4: if the backend at every step returns a non-final action naming a
tool id absent from the registry, reason_and_act runs exactly max_steps
iterations, records at each one the parsed action followed by an
observation carrying the unknown-tool error message, and returns the
step-budget-exhausted answer with a trace of exactly max_steps
action/observation pairs. -/
theorem reason_and_act_unknown_tool_budget (env : LoopEnv) (query : String)
    (max_steps : Nat) (H : AlwaysUnknownTool env) :
    ∃ l : List (List (String × JsonValue) × String),
      l.length = max_steps ∧
      reason_and_act env query max_steps
        = ⟨query, .str budgetAnswer, stepPairs l⟩ ∧
      ∀ p ∈ l, env.registry.contains p.2 = false := by
  obtain ⟨l, hlen, hres, hregs⟩ := loopGo_unknown_tool env H query max_steps []
    [.system env.sysPrompt, .human query]
  refine ⟨l, hlen, ?_, hregs⟩
  show loopGo env query max_steps [] [.system env.sysPrompt, .human query]
    = (⟨query, .str budgetAnswer, stepPairs l⟩ : RAResult)
  rw [hres]
  rfl

/-- Concrete parsed action dict used by the C4 witness backend: a
non-final step requesting a tool id that is not registered. -/
def unknownToolActionFields : List (String × JsonValue) :=
  [("thought", .str "pick a tool"), ("is_final", .bool false),
   ("action", .obj [("tool", .str "opentargets.search_drugs"),
                    ("arguments", .obj [("query", .str "aspirin")])])]

/-- Concrete loop environment for the C4 witness: the backend always
emits a braced completion, the parse oracle always yields the
unknown-tool action dict, and the registry holds one unrelated tool. -/
def unknownToolEnv : LoopEnv :=
  ⟨fun _ => .ok "\x7bA\x7d", fun _ => some (.obj unknownToolActionFields),
   fun _ => "dumped", "prompt", ["mygene.query_genes"], fun _ _ => .ok .null⟩

/-- C4 witness: with a step budget of 2 the loop produces exactly 2
action/observation pairs and the budget-exhausted answer. -/
theorem reason_and_act_unknown_tool_budget_witness :
    ∃ l : List (List (String × JsonValue) × String),
      l.length = 2 ∧
      reason_and_act unknownToolEnv "which drug targets EGFR" 2
        = ⟨"which drug targets EGFR", .str budgetAnswer, stepPairs l⟩ ∧
      ∀ p ∈ l, unknownToolEnv.registry.contains p.2 = false :=
  reason_and_act_unknown_tool_budget unknownToolEnv "which drug targets EGFR" 2
    (fun _ => ⟨"\x7bA\x7d", unknownToolActionFields,
      [("tool", .str "opentargets.search_drugs"),
       ("arguments", .obj [("query", .str "aspirin")])],
      "opentargets.search_drugs", .obj [("query", .str "aspirin")],
      rfl, rfl, rfl, rfl, rfl, rfl, rfl⟩)
